import Mathlib

/-!
Verification development for the AnkiGenAI deck generator
(src/deck_generator.py).  The Python class `DeckGenerator` is shallowly
embedded: Python dicts become association lists with insert-overwrite
semantics, the JSON cache file becomes an explicit `Json` AST with
encode/decode functions, the per-item batch loop `gen_deck` becomes a
recursive state-passing function, and the process-level cleanup
machinery (`try/finally`, `atexit`, signal handlers) becomes an event
trace.  Theorems at the end settle the specification claims.
-/

namespace AnkiGen

/-! ## Python-dict model

Python `dict`s preserve insertion order; assigning to an existing key
updates the value in place, assigning to a fresh key appends it.  We
model a dict as an association list with exactly those semantics. -/

/-- Lookup in a Python dict: first (and, for dicts built by `dictInsert`,
only) entry with the given key. -/
def dictGet? {α : Type} (d : List (String × α)) (k : String) : Option α :=
  match d with
  | [] => none
  | p :: rest => if p.1 == k then some p.2 else dictGet? rest k

/-- Python `k in d`. -/
def dictContains {α : Type} (d : List (String × α)) (k : String) : Bool :=
  match d with
  | [] => false
  | p :: rest => p.1 == k || dictContains rest k

/-- Python `d[k] = v`: update in place if the key exists, else append. -/
def dictInsert {α : Type} (d : List (String × α)) (k : String) (v : α) :
    List (String × α) :=
  if dictContains d k then d.map (fun p => if p.1 == k then (k, v) else p)
  else d ++ [(k, v)]

theorem dictContains_eq_isSome {α : Type} (d : List (String × α)) (k : String) :
    dictContains d k = (dictGet? d k).isSome := by
  induction d with
  | nil => rfl
  | cons p rest ih =>
    simp only [dictContains, dictGet?]
    cases h : p.1 == k with
    | true => simp
    | false => simp [ih]

theorem dictGet?_map_update_self {α : Type} (d : List (String × α)) (k : String) (v : α)
    (h : dictContains d k = true) :
    dictGet? (d.map (fun p => if p.1 == k then (k, v) else p)) k = some v := by
  induction d with
  | nil => simp [dictContains] at h
  | cons p rest ih =>
    cases hpk : p.1 == k with
    | true =>
      simp [List.map_cons, hpk, dictGet?]
    | false =>
      have h2 : dictContains rest k = true := by
        simp only [dictContains, Bool.or_eq_true, hpk] at h
        simpa using h
      simpa [dictGet?, hpk] using ih h2

theorem dictGet?_append_fresh {α : Type} (d : List (String × α)) (k : String) (v : α)
    (h : dictContains d k = false) :
    dictGet? (d ++ [(k, v)]) k = some v := by
  induction d with
  | nil => simp [dictGet?]
  | cons p rest ih =>
    simp only [dictContains, Bool.or_eq_false_iff] at h
    simp only [List.cons_append, dictGet?, h.1, if_false]
    exact ih h.2

/-- After `d[k] = v`, looking up `k` yields `v`. -/
theorem dictGet?_insert_self {α : Type} (d : List (String × α)) (k : String) (v : α) :
    dictGet? (dictInsert d k v) k = some v := by
  unfold dictInsert
  cases h : dictContains d k with
  | true => simp only [if_true]; exact dictGet?_map_update_self d k v h
  | false => simpa using dictGet?_append_fresh d k v h

theorem dictGet?_map_update_ne {α : Type} (d : List (String × α)) (k k' : String) (v : α)
    (hne : k' ≠ k) :
    dictGet? (d.map (fun p => if p.1 == k then (k, v) else p)) k' = dictGet? d k' := by
  induction d with
  | nil => rfl
  | cons p rest ih =>
    cases hpk : p.1 == k with
    | true =>
      have hp1 : p.1 = k := beq_iff_eq.mp hpk
      have hkk' : (k == k') = false := beq_eq_false_iff_ne.mpr (fun hc => hne hc.symm)
      have hpk' : (p.1 == k') = false := by rw [hp1]; exact hkk'
      simpa [dictGet?, hpk, hkk', hpk'] using ih
    | false =>
      cases hq : p.1 == k' with
      | true => simp [dictGet?, hpk, hq]
      | false => simpa [dictGet?, hpk, hq] using ih

theorem dictGet?_append_ne {α : Type} (d : List (String × α)) (k k' : String) (v : α)
    (hne : k' ≠ k) :
    dictGet? (d ++ [(k, v)]) k' = dictGet? d k' := by
  induction d with
  | nil =>
    have hkk' : (k == k') = false := beq_eq_false_iff_ne.mpr (fun hc => hne hc.symm)
    simp [dictGet?, hkk']
  | cons p rest ih =>
    simp only [List.cons_append, dictGet?]
    cases hq : p.1 == k' with
    | true => rfl
    | false => exact ih

/-- After `d[k] = v`, other keys are unchanged. -/
theorem dictGet?_insert_ne {α : Type} (d : List (String × α)) (k k' : String) (v : α)
    (hne : k' ≠ k) :
    dictGet? (dictInsert d k v) k' = dictGet? d k' := by
  unfold dictInsert
  cases h : dictContains d k with
  | true => simp only [if_true]; exact dictGet?_map_update_ne d k k' v hne
  | false => simpa using dictGet?_append_ne d k k' v hne

/-! ## Structured records and the JSON cache file

A structured record is what `pydantic.BaseModel.model_dump()` produces for
a model generated by `SchemaConfig.gen_ai_schema`: a mapping from field
name to either a string or a list of strings. -/

/-- A field value of a structured record (`str` or `list[str]` in the
pydantic model). -/
inductive RecValue where
  | rstr : String → RecValue
  | rlist : List String → RecValue
deriving DecidableEq, Repr

/-- Whether a record value has the `list[str]` shape. -/
def RecValue.isListVal : RecValue → Bool
  | .rstr _ => false
  | .rlist _ => true

/-- A structured record: `model_dump()` of the generated pydantic model. -/
abbrev Record := List (String × RecValue)

/-- The in-memory AI content cache `self.ai_content_cache`:
item text → serialized record. -/
abbrev Cache := List (String × Record)

/-- The fragment of JSON produced and consumed by the cache serializer
(`json.dump` / `json.load` in `_save_ai_cache` / `_load_ai_cache`). -/
inductive Json where
  | jstr : String → Json
  | jarr : List Json → Json
  | jobj : List (String × Json) → Json

/-- JSON encoding of one record value (what `json.dump` writes for it). -/
def encodeValue : RecValue → Json
  | .rstr s => .jstr s
  | .rlist xs => .jarr (xs.map Json.jstr)

/-- Decode a JSON array of strings. -/
def decodeStrList : List Json → Option (List String)
  | [] => some []
  | .jstr s :: rest => (decodeStrList rest).map (s :: ·)
  | _ :: _ => none

/-- Decode one record value from JSON. -/
def decodeValue : Json → Option RecValue
  | .jstr s => some (.rstr s)
  | .jarr js => (decodeStrList js).map RecValue.rlist
  | .jobj _ => none

/-- JSON encoding of a whole record. -/
def encodeRecord (r : Record) : Json :=
  .jobj (r.map fun p => (p.1, encodeValue p.2))

/-- Decode the entries of a JSON object into a record. -/
def decodeRecordEntries : List (String × Json) → Option Record
  | [] => some []
  | (k, j) :: rest =>
    match decodeValue j with
    | none => none
    | some v => (decodeRecordEntries rest).map ((k, v) :: ·)

/-- Decode a record from JSON. -/
def decodeRecord : Json → Option Record
  | .jobj kvs => decodeRecordEntries kvs
  | _ => none

/-- JSON encoding of the whole cache, as written by `_save_ai_cache`. -/
def encodeCache (c : Cache) : Json :=
  .jobj (c.map fun p => (p.1, encodeRecord p.2))

/-- Decode the entries of a JSON object into a cache. -/
def decodeCacheEntries : List (String × Json) → Option Cache
  | [] => some []
  | (k, j) :: rest =>
    match decodeRecord j with
    | none => none
    | some r => (decodeCacheEntries rest).map ((k, r) :: ·)

/-- Decode a cache from JSON. -/
def decodeCache : Json → Option Cache
  | .jobj kvs => decodeCacheEntries kvs
  | _ => none

theorem decodeStrList_map_jstr (xs : List String) :
    decodeStrList (xs.map Json.jstr) = some xs := by
  induction xs with
  | nil => rfl
  | cons s rest ih => simp [decodeStrList, ih]

theorem decodeValue_encodeValue (v : RecValue) :
    decodeValue (encodeValue v) = some v := by
  cases v with
  | rstr s => rfl
  | rlist xs => simp [encodeValue, decodeValue, decodeStrList_map_jstr]

theorem decodeRecord_encodeRecord (r : Record) :
    decodeRecord (encodeRecord r) = some r := by
  simp only [encodeRecord, decodeRecord]
  induction r with
  | nil => rfl
  | cons p rest ih =>
    simp only [List.map_cons, decodeRecordEntries, decodeValue_encodeValue, ih]
    rfl

/-- The JSON serialization of the cache is lossless. -/
theorem decodeCache_encodeCache (c : Cache) :
    decodeCache (encodeCache c) = some c := by
  simp only [encodeCache, decodeCache]
  induction c with
  | nil => rfl
  | cons p rest ih =>
    simp only [List.map_cons, decodeCacheEntries, decodeRecord_encodeRecord, ih]
    rfl

/-! ## Schema compilation (`SchemaConfig.gen_ai_schema`) -/

/-- The attributes of one declarative field spec: the value of one entry of
`SchemaConfig.ai_schema` (`"list"` flag, defaulting to false, and the
required `"description"`). -/
structure FieldAttrs where
  isList : Bool
  description : String
deriving DecidableEq, Repr

/-- The normalization `field_name.replace(' ', '_')` applied to every field
name in `gen_ai_schema`. -/
def normalizeFieldName (s : String) : String :=
  String.mk (s.toList.map fun c => if c = ' ' then '_' else c)

/-- The inverse renaming `key.replace('_', ' ')` used when building the
note data dict and the Anki field list. -/
def underscoreToSpace (s : String) : String :=
  String.mk (s.toList.map fun c => if c = '_' then ' ' else c)

/-- Embeds `SchemaConfig.gen_ai_schema` (src/deck_generator.py:58-67): the
`fields` dict is built by iterating the declarative schema, normalizing
each name and assigning `fields[field_name] = (type, Field(description))`.
A dict assignment to an already-present key silently overwrites it; no
check for collisions is performed and no exception is raised. -/
def genAiSchema (aiSchema : List (String × FieldAttrs)) : List (String × FieldAttrs) :=
  aiSchema.foldl (fun fields p => dictInsert fields (normalizeFieldName p.1) p.2) []

/-- The shape signature of a compiled schema: normalized field name together
with whether the field is `list[str]` (true) or `str` (false). -/
def schemaShape (s : List (String × FieldAttrs)) : List (String × Bool) :=
  s.map fun p => (p.1, p.2.isList)

/-! ## Note rendering (`gen_anki_note`) -/

/-- A Python value that can appear in the note data dict. Strings,
lists of strings, ints and floats are the supported shapes; `float` is
represented by its printed decimal form, and `other` stands for a value of
any unsupported type, carrying its `str()` form. -/
inductive Value where
  | str : String → Value
  | list : List String → Value
  | int : Int → Value
  | float : String → Value
  | other : String → Value
deriving DecidableEq, Repr

/-- Python `str()` of a value, as interpolated by an f-string. -/
def Value.pyStr : Value → String
  | .str s => s
  | .list xs => "[" ++ String.intercalate ", " (xs.map fun s => "\x27" ++ s ++ "\x27") ++ "]"
  | .int z => toString z
  | .float s => s
  | .other s => s

/-- The per-field dispatch in the body of `gen_anki_note`
(src/deck_generator.py:252-264): the audio field is wrapped in a
`[sound:...]` marker, strings pass through, lists of strings are joined
with `<br>`, ints and floats are stringified, and any other type appends
nothing (an error is logged and the field is dropped). -/
def renderValue (fieldName : String) (v : Value) : Option String :=
  if fieldName == "audio" then some ("[sound:" ++ v.pyStr ++ "]")
  else
    match v with
    | .str s => some s
    | .list xs => some (String.intercalate "<br>" xs)
    | .int z => some (toString z)
    | .float s => some s
    | .other _ => none

/-- Embeds the field-collection loop of `DeckGenerator.gen_anki_note`
(src/deck_generator.py:247-271): for each configured Anki field, in order,
a value is appended iff the field is present in the data dict and of a
supported type. -/
def genAnkiNoteFields (ankiFields : List String) (data : List (String × Value)) :
    List String :=
  ankiFields.filterMap fun fname =>
    match dictGet? data fname with
    | some v => renderValue fname v
    | none => none

/-- Embeds the Anki field-list construction in `DeckGenerator.__init__`
(src/deck_generator.py:96-111): with an empty field order the item field is
prepended to the model fields and provided fields (all with underscores
turned to spaces); otherwise the explicit order is used; an `audio` field
is appended when audio generation is on and no such field exists yet. -/
def mkAnkiFields (schemaFieldNames providedFields : List String)
    (itemField : String) (fieldOrder : List String) (genAudio : Bool) :
    List String :=
  let base :=
    if fieldOrder.isEmpty then
      itemField :: (schemaFieldNames.map underscoreToSpace
        ++ providedFields.map underscoreToSpace)
    else fieldOrder.map underscoreToSpace
  if !(base.any fun f => f == "audio") && genAudio then base ++ ["audio"] else base

/-! ## Cache persistence (`_load_ai_cache` / `_save_ai_cache`) -/

/-- Disk state of the cache file: `none` = the file does not exist;
`some (.error e)` = the file exists but `json.load` raises (corruption);
`some (.ok j)` = the file parses to the JSON value `j`. -/
abbrev CacheFile := Option (Except String Json)

/-- Embeds `DeckGenerator._load_ai_cache` (src/deck_generator.py:135-146):
a missing file yields an empty cache; a file that fails to parse logs a
warning (second component `true`) and yields an empty cache; a parsed file
yields its typed contents.  This function is total: no disk state makes it
fail. -/
def loadAiCache (file : CacheFile) : Cache × Bool :=
  match file with
  | none => ([], false)
  | some (.error _) => ([], true)
  | some (.ok j) => ((decodeCache j).getD [], false)

/-- Embeds `DeckGenerator._save_ai_cache` (src/deck_generator.py:148-157):
returns the JSON written to the cache file, or `none` when no cache
directory is configured (the function returns without writing). -/
def saveAiCache (hasCacheDir : Bool) (c : Cache) : Option Json :=
  if hasCacheDir then some (encodeCache c) else none

/-! ## Audio generation (`gen_audio_file`) -/

/-- Raw audio bytes. -/
abbrev Bytes := List Nat

/-- Python `os.path.basename`: the part after the final path separator. -/
def osPathBasename (p : String) : String :=
  String.mk ((p.toList.reverse.takeWhile fun c => c ≠ '/').reverse)

/-- The mutable state threaded through one `DeckGenerator` run: the
in-memory AI content cache and its call counter, the audio cache
directory's files, all files written under the output directory, and the
number of TTS synthesis calls. -/
structure RunState where
  aiCache : Cache
  aiCalls : Nat
  audioCache : List (String × Bytes)
  files : List (String × Bytes)
  synthCalls : Nat
deriving DecidableEq, Repr

/-- Embeds `DeckGenerator.gen_audio_file` (src/deck_generator.py:181-214):
with a cache directory, a cache file named after the target's basename is
copied to the target path and no synthesis happens; otherwise the TTS
client is invoked, the result is written to the target path, and (if
caching) also copied into the audio cache directory. -/
def genAudioFile (hasCacheDir : Bool) (synth : String → Bytes)
    (text audioPath : String) (st : RunState) : RunState :=
  let audioFilename := osPathBasename audioPath
  match (if hasCacheDir then dictGet? st.audioCache audioFilename else none) with
  | some cachedBytes =>
      { st with files := dictInsert st.files audioPath cachedBytes }
  | none =>
      let bytes := synth text
      let st1 := { st with
        synthCalls := st.synthCalls + 1,
        files := dictInsert st.files audioPath bytes }
      if hasCacheDir then
        { st1 with audioCache := dictInsert st1.audioCache audioFilename bytes }
      else st1

/-! ## AI content generation (`gen_ai_content`) -/

/-- Pydantic reconstruction `self.pydantic_schema(**cached_data)` followed
by `model_dump()`: every schema field must be present in the dict with its
declared shape (else a ValidationError — `none` here — is raised); extra
keys are ignored; the reconstructed record lists the schema's fields in
schema order. -/
def validateFields (d : Record) : List (String × Bool) → Option Record
  | [] => some []
  | (n, b) :: rest =>
    match dictGet? d n with
    | none => none
    | some v =>
      if v.isListVal == b then (validateFields d rest).map ((n, v) :: ·) else none

/-- The errors the embedded run can raise. -/
inductive PyError where
  | indexError
  | attributeNone
  | validationError
  | generationError : String → PyError
deriving DecidableEq, Repr

/-- Embeds `DeckGenerator.gen_ai_content` (src/deck_generator.py:216-245):
on a cache hit the cached dict is revalidated through the pydantic schema
and no provider call happens; on a miss the provider (`oracle`) is called
— counted even when it fails — and a successful result is stored in the
cache iff a cache directory is configured. -/
def genAiContent (hasCacheDir : Bool) (schema : List (String × Bool))
    (oracle : String → Except String Record) (word : String) (st : RunState) :
    Except PyError Record × RunState :=
  match (if hasCacheDir then dictGet? st.aiCache word else none) with
  | some cachedData =>
      match validateFields cachedData schema with
      | some r => (.ok r, st)
      | none => (.error .validationError, st)
  | none =>
      let st1 := { st with aiCalls := st.aiCalls + 1 }
      match oracle word with
      | .error e => (.error (.generationError e), st1)
      | .ok r =>
          (.ok r,
           if hasCacheDir then { st1 with aiCache := dictInsert st1.aiCache word r }
           else st1)

/-! ## The batch loop (`gen_deck`) -/

/-- One generated Anki note: its guid and its ordered field values. -/
structure NoteR where
  guid : String
  fields : List String
deriving DecidableEq, Repr

/-- Static configuration of a `DeckGenerator` instance as used by
`gen_deck`: the compiled schema shape (`self.pydantic_schema`), the item
field name, the Anki field list, the deck name, and the audio / cache-dir
flags. -/
structure DeckConfig where
  schema : List (String × Bool)
  itemField : String
  ankiFields : List String
  deckName : String
  genAudio : Bool
  hasCacheDir : Bool
deriving DecidableEq, Repr

/-- `deck_name.replace(' ', '')`: the name prefix used for guids and the
package file name. -/
def stripSpaces (s : String) : String :=
  String.mk (s.toList.filter fun c => c ≠ ' ')

/-- The dict comprehension
`{key.replace('_', ' '): value for key, value in dct.items()}` applied to
a record, yielding the note data dict. -/
def recordToDct (r : Record) : List (String × Value) :=
  r.foldl (fun d p =>
    dictInsert d (underscoreToSpace p.1)
      (match p.2 with
       | .rstr s => Value.str s
       | .rlist xs => Value.list xs)) []

/-- The provided-content merge loop
`for field, field_values in provided_content.items(): dct[field] = field_values[i]`;
`none` models the IndexError raised when a value list is shorter than the
item list. -/
def mergeProvided (prov : List (String × List Value)) (i : Nat)
    (dct : List (String × Value)) : Option (List (String × Value)) :=
  match prov with
  | [] => some dct
  | (f, vals) :: rest =>
    match vals.get? i with
    | none => none
    | some v => mergeProvided rest i (dictInsert dct f v)

/-- Guid resolution at the top of each loop iteration
(src/deck_generator.py:291-294): the explicit guid list element (an
IndexError when the list is shorter than the item list) or the
deterministic `name_prefix-(i+1)` fallback. -/
def resolveGuid (guids : Option (List String)) (deckName : String) (i : Nat) :
    Except PyError String :=
  match guids with
  | some gs =>
    match gs.get? i with
    | some g => .ok g
    | none => .error .indexError
  | none => .ok (stripSpaces deckName ++ "-" ++ toString (i + 1))

/-- One iteration of the per-item `for` loop of `DeckGenerator.gen_deck`
(src/deck_generator.py:288-327).  Resolve the guid, generate or fetch AI
content, rebuild the data dict with spaced keys, add the item field, merge
provided content (`provided_content.items()` raises an AttributeError when
`provided_content` is None, and `field_values[i]` an IndexError), if audio
is enabled generate the audio file, add the audio field and record the
media path, and render the note.  Returns the rendered note and the audio
path it added (if any), or the error raised, together with the state
after the iteration. -/
def genDeckStep (cfg : DeckConfig) (oracle : String → Except String Record)
    (synth : String → Bytes) (provided : Option (List (String × List Value)))
    (guids : Option (List String)) (mediaDir : String) (item : String) (i : Nat)
    (st : RunState) : Except PyError (NoteR × Option String) × RunState :=
  match resolveGuid guids cfg.deckName i with
  | .error e => (.error e, st)
  | .ok guid =>
    match genAiContent cfg.hasCacheDir cfg.schema oracle item st with
    | (.error e, st1) => (.error e, st1)
    | (.ok record, st1) =>
      match provided with
      | none => (.error .attributeNone, st1)
      | some prov =>
        match mergeProvided prov i
            (dictInsert (recordToDct record) cfg.itemField (.str item)) with
        | none => (.error .indexError, st1)
        | some dct2 =>
          let audioBasename := guid ++ ".mp3"
          let audioPath := mediaDir ++ "/" ++ audioBasename
          (.ok
            (⟨guid, genAnkiNoteFields cfg.ankiFields
                (if cfg.genAudio then dictInsert dct2 "audio" (.str audioBasename)
                 else dct2)⟩,
             if cfg.genAudio then some audioPath else none),
           if cfg.genAudio then genAudioFile cfg.hasCacheDir synth item audioPath st1
           else st1)

/-- Accumulate the audio path produced by one iteration (if any) onto the
collected `audio_file_paths`. -/
def consPath (pathOpt : Option String) (paths : List String) : List String :=
  match pathOpt with
  | some p => p :: paths
  | none => paths

/-- The per-item `for` loop of `DeckGenerator.gen_deck`: iterate
`genDeckStep` over the items, accumulating rendered notes and media
paths; an error aborts the loop, returning the state at the point of
failure. -/
def genDeckLoop (cfg : DeckConfig) (oracle : String → Except String Record)
    (synth : String → Bytes) (provided : Option (List (String × List Value)))
    (guids : Option (List String)) (mediaDir : String) :
    List String → Nat → RunState → List NoteR → List String →
    Except PyError (List NoteR × List String) × RunState
  | [], _, st, notes, paths => (.ok (notes.reverse, paths.reverse), st)
  | item :: rest, i, st, notes, paths =>
    match genDeckStep cfg oracle synth provided guids mediaDir item i st with
    | (.error e, st1) => (.error e, st1)
    | (.ok (note, pathOpt), st1) =>
      genDeckLoop cfg oracle synth provided guids mediaDir rest (i + 1) st1
        (note :: notes) (consPath pathOpt paths)

/-- The observable outcome of one `gen_deck` call: the loop result, the
final run state, the JSON flushed to the cache file by the `finally`
block, and the package artifact (notes plus media paths), written only
when the loop completed. -/
structure DeckOutcome where
  result : Except PyError (List NoteR × List String)
  finalState : RunState
  flushed : Option Json
  package : Option (List NoteR × List String)

/-- Embeds `DeckGenerator.gen_deck` (src/deck_generator.py:273-341): run
the per-item loop inside `try`; the `finally` block saves the cache
(a no-op without a cache directory); the package is written after the
`finally` block only when no exception escaped the loop. -/
def genDeck (cfg : DeckConfig) (oracle : String → Except String Record)
    (synth : String → Bytes) (provided : Option (List (String × List Value)))
    (guids : Option (List String)) (outputDir : String) (items : List String)
    (init : RunState) : DeckOutcome :=
  let mediaDir := outputDir ++ "/media"
  let (res, st) := genDeckLoop cfg oracle synth provided guids mediaDir items 0 init [] []
  let flushed := saveAiCache cfg.hasCacheDir st.aiCache
  match res with
  | .error e => ⟨.error e, st, flushed, none⟩
  | .ok out => ⟨.ok out, st, flushed, some out⟩

/-! ## Process-level cleanup trace

`_register_cleanup_handlers` (src/deck_generator.py:159-173) is called
from `__init__` only when a cache directory is configured.  It registers
`_cleanup_cache` with `atexit` and installs a SIGINT/SIGTERM handler that
runs `_cleanup_cache`, restores the default disposition and re-delivers
the signal (so the process dies from the default action: no `finally`
blocks and no atexit handlers run after that).  On a normal interpreter
exit — including an uncaught exception — atexit handlers do run. -/

/-- Observable process events between per-item-loop exit and process
termination. -/
inductive CEvent where
  | flushCache
  | writePackage
  | exitProcess
deriving DecidableEq, Repr

/-- How the batch run ends: normal completion of `gen_deck`, an uncaught
exception escaping it, or a termination signal (SIGINT/SIGTERM). -/
inductive ExitMode where
  | normal
  | exception
  | signal
deriving DecidableEq, Repr

/-- `DeckGenerator._cleanup_cache` (src/deck_generator.py:175-179): saves
the cache iff a cache directory is configured. -/
def cleanupCacheEvents (hasCacheDir : Bool) : List CEvent :=
  if hasCacheDir then [.flushCache] else []

/-- The `finally` block of `gen_deck` (src/deck_generator.py:329-332):
saves the cache iff a cache directory is configured. -/
def genDeckFinallyEvents (hasCacheDir : Bool) : List CEvent :=
  if hasCacheDir then [.flushCache] else []

/-- The atexit handlers run at normal interpreter exit: `_cleanup_cache`
is registered only when a cache directory is configured. -/
def atexitEvents (hasCacheDir : Bool) : List CEvent :=
  if hasCacheDir then cleanupCacheEvents hasCacheDir else []

/-- The signal handler installed by `_register_cleanup_handlers`: runs
`_cleanup_cache`, then re-delivers the signal with the default
disposition (immediate death; no atexit, no `finally`).  Without a cache
directory no handler was installed and the default disposition kills the
process directly. -/
def signalHandlerEvents (hasCacheDir : Bool) : List CEvent :=
  if hasCacheDir then cleanupCacheEvents hasCacheDir else []

/-- The full event trace from per-item-loop exit to process termination,
per exit mode. -/
def processEvents (hasCacheDir : Bool) : ExitMode → List CEvent
  | .normal =>
      genDeckFinallyEvents hasCacheDir ++ [.writePackage]
        ++ atexitEvents hasCacheDir ++ [.exitProcess]
  | .exception =>
      genDeckFinallyEvents hasCacheDir ++ atexitEvents hasCacheDir ++ [.exitProcess]
  | .signal =>
      signalHandlerEvents hasCacheDir ++ [.exitProcess]

/-- Number of cache flushes in a trace. -/
def flushCount (hasCacheDir : Bool) (mode : ExitMode) : Nat :=
  (processEvents hasCacheDir mode).count CEvent.flushCache

/-! ## Key-uniqueness lemmas for the dict model -/

theorem keys_map_update {α : Type} (d : List (String × α)) (k : String) (v : α) :
    (d.map (fun p => if p.1 == k then (k, v) else p)).map Prod.fst = d.map Prod.fst := by
  induction d with
  | nil => rfl
  | cons p rest ih =>
    simp only [List.map_cons]
    rw [ih]
    congr 1
    cases hpk : p.1 == k with
    | true =>
      have hp1 : p.1 = k := beq_iff_eq.mp hpk
      simp [hpk, hp1]
    | false => simp [hpk]

theorem contains_false_not_mem {α : Type} (d : List (String × α)) (k : String)
    (h : dictContains d k = false) : k ∉ d.map Prod.fst := by
  induction d with
  | nil => simp
  | cons p rest ih =>
    simp only [dictContains, Bool.or_eq_false_iff] at h
    simp only [List.map_cons, List.mem_cons]
    rintro (h1 | h2)
    · have hb := beq_iff_eq.mpr h1.symm
      rw [h.1] at hb
      exact Bool.false_ne_true hb
    · exact ih h.2 h2

theorem keys_insert_nodup {α : Type} (d : List (String × α)) (k : String) (v : α)
    (h : (d.map Prod.fst).Nodup) : ((dictInsert d k v).map Prod.fst).Nodup := by
  unfold dictInsert
  cases hc : dictContains d k with
  | true =>
    rw [if_pos rfl, keys_map_update]
    exact h
  | false =>
    rw [if_neg (by simp), List.map_append, List.nodup_append]
    refine ⟨h, List.nodup_singleton k, ?_⟩
    intro a ha hb
    have hak : a = k := by simpa using hb
    exact contains_false_not_mem d k hc (hak ▸ ha)

/-! ## The compiled schema: duplicate normalized names collapse -/

/-- The last declarative field spec whose name normalizes to `m`
(spec-side characterization used by the amended claim C1). -/
def lastSpecFor (s : List (String × FieldAttrs)) (m : String) : Option FieldAttrs :=
  s.foldl (fun acc p => if normalizeFieldName p.1 == m then some p.2 else acc) none

theorem genAiSchema_go_nodup (s : List (String × FieldAttrs))
    (acc : List (String × FieldAttrs)) (h : (acc.map Prod.fst).Nodup) :
    ((s.foldl (fun fields p => dictInsert fields (normalizeFieldName p.1) p.2) acc).map
      Prod.fst).Nodup := by
  induction s generalizing acc with
  | nil => exact h
  | cons p rest ih =>
    exact ih _ (keys_insert_nodup acc (normalizeFieldName p.1) p.2 h)

theorem genAiSchema_go_get (s : List (String × FieldAttrs))
    (acc : List (String × FieldAttrs)) (m : String) :
    dictGet? (s.foldl (fun fields p => dictInsert fields (normalizeFieldName p.1) p.2) acc) m
      = s.foldl (fun a p => if normalizeFieldName p.1 == m then some p.2 else a)
          (dictGet? acc m) := by
  induction s generalizing acc with
  | nil => rfl
  | cons p rest ih =>
    simp only [List.foldl_cons]
    rw [ih]
    congr 1
    cases hm : normalizeFieldName p.1 == m with
    | true =>
      have : m = normalizeFieldName p.1 := (beq_iff_eq.mp hm).symm
      simp [this, dictGet?_insert_self]
    | false =>
      have hne : m ≠ normalizeFieldName p.1 := by
        intro hc
        exact absurd (beq_iff_eq.mpr hc.symm) (by simp [hm])
      simp [dictGet?_insert_ne _ _ _ _ hne, hm]

/-- C1 (amended): compiling a schema never fails and never contacts the
generation provider (`gen_ai_schema` is a pure function of the declarative
spec).  When two field specs normalize to the same name, the later spec
silently overwrites the earlier one: the compiled record type has one
field per distinct normalized name — its keys are unique — and the
attributes of a normalized name are those of the LAST spec normalizing to
it. -/
theorem c1_claim (s : List (String × FieldAttrs)) :
    ((genAiSchema s).map Prod.fst).Nodup ∧
    ∀ m : String, dictGet? (genAiSchema s) m = lastSpecFor s m := by
  constructor
  · exact genAiSchema_go_nodup s [] (by simp)
  · intro m
    exact genAiSchema_go_get s [] m

/-- C1 counterexample: the specs `"a b"` and `"a_b"` are distinct yet
normalize to the same name; compiling them raises no `SchemaError` — the
compiled record type IS produced, containing a single field whose
attributes come from the second spec (the first spec is silently lost). -/
theorem c1_counterexample :
    ("a b" ≠ "a_b") ∧
    normalizeFieldName "a b" = normalizeFieldName "a_b" ∧
    genAiSchema [("a b", ⟨false, "first"⟩), ("a_b", ⟨true, "second"⟩)]
      = [("a_b", ⟨true, "second"⟩)] := by
  refine ⟨by decide, by decide, by decide⟩

/-! ## C2: how often the cache flush runs on loop exit -/

/-- C2 (amended): with a cache directory configured, the cache flush runs
at least once between loop exit and process termination on every exit
mode, and every flush precedes process exit; but it runs exactly once only
on the signal path — on normal completion and on an exception exit it runs
twice (once in the `finally` block of `gen_deck` and once more in the
atexit handler registered by `_register_cleanup_handlers`).  Without a
cache directory it never runs. -/
theorem c2_claim (mode : ExitMode) :
    1 ≤ flushCount true mode ∧
    flushCount true mode = (match mode with | .signal => 1 | _ => 2) ∧
    flushCount false mode = 0 ∧
    (processEvents true mode).getLast? = some CEvent.exitProcess := by
  cases mode <;> exact ⟨by decide, by decide, by decide, by decide⟩

/-- C2 counterexample: on normal completion of a batch run with a cache
directory configured, the flush operation runs twice (the `finally` block
and the atexit handler), not exactly once. -/
theorem c2_counterexample :
    flushCount true ExitMode.normal = 2 ∧ ¬ flushCount true ExitMode.normal = 1 := by
  exact ⟨by decide, by decide⟩

/-! ## C3: the per-field rendering rules -/

/-- C3: rendering a note maps each field present in the data as follows:
the audio field is wrapped in a `[sound:...]` marker, a string passes
through unchanged, a list of strings is joined with `<br>`, ints and
floats are converted to their string form, and a value of any other type
is dropped from the output entirely; in particular
`render({"word":"run"}, ["word"]) = ["run"]`, a list
`["a - x","b - y"]` renders to `"a - x<br>b - y"`, and a dropped field
leaves no empty placeholder behind. -/
theorem c3_claim :
    (∀ v : Value, renderValue "audio" v = some ("[sound:" ++ v.pyStr ++ "]")) ∧
    (∀ n s, n ≠ "audio" → renderValue n (.str s) = some s) ∧
    (∀ n xs, n ≠ "audio" →
      renderValue n (.list xs) = some (String.intercalate "<br>" xs)) ∧
    (∀ n (z : Int), n ≠ "audio" → renderValue n (.int z) = some (toString z)) ∧
    (∀ n s, n ≠ "audio" → renderValue n (.float s) = some s) ∧
    (∀ n s, n ≠ "audio" → renderValue n (.other s) = none) ∧
    genAnkiNoteFields ["word"] [("word", Value.str "run")] = ["run"] ∧
    genAnkiNoteFields ["roots"] [("roots", Value.list ["a - x", "b - y"])]
      = ["a - x<br>b - y"] ∧
    genAnkiNoteFields ["audio"] [("audio", Value.str "Word-1.mp3")]
      = ["[sound:Word-1.mp3]"] ∧
    genAnkiNoteFields ["note", "word"]
      [("note", Value.other "dict"), ("word", Value.str "run")] = ["run"] := by
    refine ⟨fun v => by simp [renderValue],
      fun n s hn => by simp [renderValue, beq_eq_false_iff_ne.mpr hn],
      fun n xs hn => by simp [renderValue, beq_eq_false_iff_ne.mpr hn],
      fun n z hn => by simp [renderValue, beq_eq_false_iff_ne.mpr hn],
      fun n s hn => by simp [renderValue, beq_eq_false_iff_ne.mpr hn],
      fun n s hn => by simp [renderValue, beq_eq_false_iff_ne.mpr hn],
      by decide, by decide, by decide, by decide⟩

/-- Witness for C3: the non-audio scalar-string rule at a concrete
field name and value. -/
theorem c3_witness :
    renderValue "definition" (Value.str "to move quickly") = some "to move quickly" :=
  c3_claim.2.1 "definition" "to move quickly" (by decide)

/-! ## C4: the cache round-trips through flush and load -/

/-- C4: for every cache, key and record, `put(k, r)` followed by a flush
to disk and a load from the same file yields a cache whose `get(k)`
returns `r` field-for-field. -/
theorem c4_claim (c : Cache) (k : String) (r : Record) :
    dictGet?
      (loadAiCache ((saveAiCache true (dictInsert c k r)).map Except.ok)).1 k
      = some r := by
  show dictGet? ((decodeCache (encodeCache (dictInsert c k r))).getD []) k = some r
  rw [decodeCache_encodeCache]
  exact dictGet?_insert_self c k r

/-! ## C5: cache loading never fails -/

/-- C5: loading the content cache from a file whose contents fail to parse
logs a warning and yields an empty cache (it does not raise — `loadAiCache`
is a total function), and loading from a nonexistent path yields an empty
cache without a warning. -/
theorem c5_claim (e : String) :
    loadAiCache (some (.error e)) = ([], true) ∧
    loadAiCache none = ([], false) := by
  exact ⟨rfl, rfl⟩

/-! ## C7: the audio cache -/

/-- C7: with caching enabled, if a cache file named after the target's
derived filename exists, it is copied byte-identically to the output
media path and synthesis is never invoked (and the cache is unchanged);
on a miss, synthesis is invoked exactly once, its result is written to
the output media path, and a copy is placed in the audio cache under the
derived filename. -/
theorem c7_claim (synth : String → Bytes) (text audioPath : String) (st : RunState) :
    (∀ b, dictGet? st.audioCache (osPathBasename audioPath) = some b →
      (genAudioFile true synth text audioPath st).synthCalls = st.synthCalls ∧
      dictGet? (genAudioFile true synth text audioPath st).files audioPath = some b ∧
      (genAudioFile true synth text audioPath st).audioCache = st.audioCache) ∧
    (dictGet? st.audioCache (osPathBasename audioPath) = none →
      (genAudioFile true synth text audioPath st).synthCalls = st.synthCalls + 1 ∧
      dictGet? (genAudioFile true synth text audioPath st).files audioPath
        = some (synth text) ∧
      dictGet? (genAudioFile true synth text audioPath st).audioCache
        (osPathBasename audioPath) = some (synth text)) := by
  constructor
  · intro b hb
    have hg : genAudioFile true synth text audioPath st
        = { st with files := dictInsert st.files audioPath b } := by
      unfold genAudioFile
      simp [hb]
    rw [hg]
    exact ⟨rfl, dictGet?_insert_self _ _ _, rfl⟩
  · intro hb
    have hg : genAudioFile true synth text audioPath st
        = { st with
            synthCalls := st.synthCalls + 1,
            files := dictInsert st.files audioPath (synth text),
            audioCache := dictInsert st.audioCache (osPathBasename audioPath)
              (synth text) } := by
      unfold genAudioFile
      simp [hb]
    rw [hg]
    exact ⟨rfl, dictGet?_insert_self _ _ _, dictGet?_insert_self _ _ _⟩

/-- Witness for C7: a concrete cache hit and a concrete miss. -/
theorem c7_witness :
    (genAudioFile true (fun _ => [7]) "word" "output/media/X-1.mp3"
      ⟨[], 0, [("X-1.mp3", [1, 2])], [], 0⟩).synthCalls = 0 ∧
    dictGet? (genAudioFile true (fun _ => [7]) "word" "output/media/X-1.mp3"
      ⟨[], 0, [("X-1.mp3", [1, 2])], [], 0⟩).files "output/media/X-1.mp3"
      = some [1, 2] ∧
    (genAudioFile true (fun _ => [7]) "word" "output/media/X-1.mp3"
      ⟨[], 0, [("X-1.mp3", [1, 2])], [], 0⟩).audioCache = [("X-1.mp3", [1, 2])] :=
  (c7_claim (fun _ => [7]) "word" "output/media/X-1.mp3"
    ⟨[], 0, [("X-1.mp3", [1, 2])], [], 0⟩).1 [1, 2] (by decide)

/-! ## C10: dropped fields shift later values to earlier slots -/

/-- The contribution of one configured field to the rendered note: `none`
when the field is absent from the data dict or of unsupported type. -/
def noteContrib (data : List (String × Value)) (f : String) : Option String :=
  match dictGet? data f with
  | some v => renderValue f v
  | none => none

theorem genAnkiNoteFields_eq_filterMap (order : List String)
    (data : List (String × Value)) :
    genAnkiNoteFields order data = order.filterMap (noteContrib data) := rfl

theorem filterMap_length_countP {α β : Type} (f : α → Option β) (l : List α) :
    (l.filterMap f).length = l.countP fun a => (f a).isSome := by
  induction l with
  | nil => rfl
  | cons x xs ih =>
    cases hx : f x with
    | none => simp [List.filterMap_cons, hx, List.countP_cons, ih]
    | some b => simp [List.filterMap_cons, hx, List.countP_cons, ih]

theorem filterMap_get_position {α β : Type} (f : α → Option β) :
    ∀ (l : List α) (i : Nat) (hi : i < l.length) (b : β),
      f (l.get ⟨i, hi⟩) = some b →
      (l.filterMap f).get? ((l.take i).countP fun a => (f a).isSome) = some b := by
  intro l
  induction l with
  | nil => intro i hi; simp at hi
  | cons x xs ih =>
    intro i hi b hb
    cases i with
    | zero =>
      simp only [List.get] at hb
      simp [List.filterMap_cons, hb]
    | succ i =>
      simp only [List.get] at hb
      have hi' : i < xs.length := by simpa using hi
      cases hx : f x with
      | none =>
        simp only [List.take_succ_cons, List.countP_cons, List.filterMap_cons, hx]
        simpa using ih i hi' b hb
      | some c =>
        simp only [List.take_succ_cons, List.countP_cons, List.filterMap_cons, hx]
        simpa using ih i hi' b hb

theorem get_mem_take {α : Type} :
    ∀ (l : List α) (i j : Nat), j < i → ∀ (hjl : j < l.length),
      l.get ⟨j, hjl⟩ ∈ l.take i := by
  intro l
  induction l with
  | nil => intro i j hj hjl; simp at hjl
  | cons x xs ih =>
    intro i j hj hjl
    cases i with
    | zero => omega
    | succ i =>
      cases j with
      | zero => simp [List.take_succ_cons]
      | succ j =>
        simp only [List.take_succ_cons, List.get]
        exact List.mem_cons_of_mem x (ih i j (by omega) (by simpa using hjl))

theorem countP_lt_length_of_mem {α : Type} (p : α → Bool) (l : List α) (a : α)
    (ha : a ∈ l) (hpa : p a = false) : l.countP p < l.length := by
  induction l with
  | nil => cases ha
  | cons x xs ih =>
    rw [List.countP_cons]
    rcases List.mem_cons.mp ha with h1 | h2
    · have hle : xs.countP p ≤ xs.length := List.countP_le_length p
      subst h1
      simp [hpa]
      omega
    · have := ih h2
      by_cases hx : p x = true <;> simp [hx, List.length_cons] <;> omega

/-- C10: the rendered field sequence contains exactly one entry per field
of the field order that is present in the data and of supported type (it
is exactly the `filterMap` of the per-field contributions, and its length
counts the contributing fields); a field that is absent or unsupported
contributes nothing, so the value of a later field at position `i` of the
field order lands at output slot `countP (take i)`, which is at most `i`
and strictly less than `i` as soon as any earlier field was skipped. -/
theorem c10_claim (order : List String) (data : List (String × Value)) :
    genAnkiNoteFields order data = order.filterMap (noteContrib data) ∧
    (genAnkiNoteFields order data).length
      = order.countP (fun f => (noteContrib data f).isSome) ∧
    ∀ i (hi : i < order.length) (s : String),
      noteContrib data (order.get ⟨i, hi⟩) = some s →
      (genAnkiNoteFields order data).get?
          ((order.take i).countP fun f => (noteContrib data f).isSome) = some s ∧
      ((order.take i).countP fun f => (noteContrib data f).isSome) ≤ i ∧
      ∀ j (hj : j < i),
        noteContrib data (order.get ⟨j, by omega⟩) = none →
        ((order.take i).countP fun f => (noteContrib data f).isSome) < i := by
  refine ⟨genAnkiNoteFields_eq_filterMap order data, ?_, ?_⟩
  · rw [genAnkiNoteFields_eq_filterMap]
    exact filterMap_length_countP _ _
  · intro i hi s hs
    refine ⟨?_, ?_, ?_⟩
    · rw [genAnkiNoteFields_eq_filterMap]
      exact filterMap_get_position _ order i hi s hs
    · calc ((order.take i).countP fun f => (noteContrib data f).isSome)
          ≤ (order.take i).length := List.countP_le_length _
        _ ≤ i := by rw [List.length_take]; omega
    · intro j hj hnone
      have hjo : j < order.length := by omega
      have hnone2 : noteContrib data (order.get ⟨j, hjo⟩) = none := hnone
      have hnone3 : noteContrib data order[j] = none := hnone2
      have hmem : order.get ⟨j, hjo⟩ ∈ order.take i :=
        get_mem_take order i j hj hjo
      have hlt := countP_lt_length_of_mem (fun f => (noteContrib data f).isSome)
        (order.take i) _ hmem (by simp [hnone3])
      have hle : (order.take i).length ≤ i := by rw [List.length_take]; omega
      omega

/-- Witness for C10: with field order `["gone", "word"]` and data holding
only `word`, the value of the second field lands at output slot 0. -/
theorem c10_witness :
    (genAnkiNoteFields ["gone", "word"] [("word", Value.str "run")]).get? 0
      = some "run" := by
  have h := (c10_claim ["gone", "word"] [("word", Value.str "run")]).2.2
    1 (by decide) "run" (by decide)
  have h0 : (([( "gone" : String), "word"].take 1).countP
      fun f => (noteContrib [("word", Value.str "run")] f).isSome) = 0 := by decide
  rw [← h0]
  exact h.1

/-! ## State lemmas about the batch loop -/

theorem genAudioFile_ai_fields (hcd : Bool) (synth : String → Bytes)
    (t p : String) (st : RunState) :
    (genAudioFile hcd synth t p st).aiCache = st.aiCache ∧
    (genAudioFile hcd synth t p st).aiCalls = st.aiCalls := by
  constructor
  · unfold genAudioFile
    dsimp only
    split
    · rfl
    · split
      · rfl
      · rfl
  · unfold genAudioFile
    dsimp only
    split
    · rfl
    · split
      · rfl
      · rfl

theorem genAiContent_aiCache_mono (hcd : Bool) (schema : List (String × Bool))
    (oracle : String → Except String Record) (word : String) (st : RunState)
    (k : String) (v : Record) (hkv : dictGet? st.aiCache k = some v) :
    dictGet? (genAiContent hcd schema oracle word st).2.aiCache k = some v := by
  unfold genAiContent
  cases hsc : (if hcd = true then dictGet? st.aiCache word else none) with
  | some cached =>
    dsimp only
    cases hv : validateFields cached schema with
    | some r => exact hkv
    | none => exact hkv
  | none =>
    dsimp only
    cases ho : oracle word with
    | error e => exact hkv
    | ok r =>
      dsimp only
      cases hcd2 : hcd with
      | false => exact hkv
      | true =>
        have hw : dictGet? st.aiCache word = none := by
          rw [hcd2] at hsc
          simpa using hsc
        have hne : k ≠ word := by
          intro hkw
          rw [hkw, hw] at hkv
          cases hkv
        show dictGet? (dictInsert st.aiCache word r) k = some v
        rw [dictGet?_insert_ne _ _ _ _ hne]
        exact hkv

/-! ### Branch equations for `genAiContent` and `genDeckStep` -/

theorem if_true_then {α : Type} (a b : α) : (if true = true then a else b) = a := rfl

theorem genAiContent_hit {schema : List (String × Bool)}
    {oracle : String → Except String Record} {word : String} {st : RunState}
    {cached r : Record}
    (hsc : dictGet? st.aiCache word = some cached)
    (hv : validateFields cached schema = some r) :
    genAiContent true schema oracle word st = (.ok r, st) := by
  unfold genAiContent
  rw [if_true_then, hsc]
  dsimp only
  rw [hv]

theorem genAiContent_hit_invalid {schema : List (String × Bool)}
    {oracle : String → Except String Record} {word : String} {st : RunState}
    {cached : Record}
    (hsc : dictGet? st.aiCache word = some cached)
    (hv : validateFields cached schema = none) :
    genAiContent true schema oracle word st = (.error .validationError, st) := by
  unfold genAiContent
  rw [if_true_then, hsc]
  dsimp only
  rw [hv]

theorem genAiContent_miss_ok {schema : List (String × Bool)}
    {oracle : String → Except String Record} {word : String} {st : RunState}
    {r : Record}
    (hsc : dictGet? st.aiCache word = none) (ho : oracle word = .ok r) :
    genAiContent true schema oracle word st
      = (.ok r, { st with
                  aiCalls := st.aiCalls + 1,
                  aiCache := dictInsert st.aiCache word r }) := by
  unfold genAiContent
  rw [if_true_then, hsc]
  dsimp only
  rw [ho]
  dsimp only
  rw [if_true_then]

theorem genAiContent_miss_err {schema : List (String × Bool)}
    {oracle : String → Except String Record} {word : String} {st : RunState}
    {e : String}
    (hsc : dictGet? st.aiCache word = none) (ho : oracle word = .error e) :
    genAiContent true schema oracle word st
      = (.error (.generationError e), { st with aiCalls := st.aiCalls + 1 }) := by
  unfold genAiContent
  rw [if_true_then, hsc]
  dsimp only
  rw [ho]

theorem genDeckStep_guid_err {cfg : DeckConfig}
    {oracle : String → Except String Record} {synth : String → Bytes}
    {provided : Option (List (String × List Value))} {guids : Option (List String)}
    {mdir item : String} {i : Nat} {st : RunState} {e : PyError}
    (hg : resolveGuid guids cfg.deckName i = .error e) :
    genDeckStep cfg oracle synth provided guids mdir item i st = (.error e, st) := by
  unfold genDeckStep
  rw [hg]

theorem genDeckStep_ai_err {cfg : DeckConfig}
    {oracle : String → Except String Record} {synth : String → Bytes}
    {provided : Option (List (String × List Value))} {guids : Option (List String)}
    {mdir item : String} {i : Nat} {st st1 : RunState} {g : String} {e : PyError}
    (hg : resolveGuid guids cfg.deckName i = .ok g)
    (hga : genAiContent cfg.hasCacheDir cfg.schema oracle item st = (.error e, st1)) :
    genDeckStep cfg oracle synth provided guids mdir item i st = (.error e, st1) := by
  unfold genDeckStep
  rw [hg]
  dsimp only
  rw [hga]

theorem genDeckStep_prov_none {cfg : DeckConfig}
    {oracle : String → Except String Record} {synth : String → Bytes}
    {guids : Option (List String)}
    {mdir item : String} {i : Nat} {st st1 : RunState} {g : String} {record : Record}
    (hg : resolveGuid guids cfg.deckName i = .ok g)
    (hga : genAiContent cfg.hasCacheDir cfg.schema oracle item st = (.ok record, st1)) :
    genDeckStep cfg oracle synth none guids mdir item i st
      = (.error .attributeNone, st1) := by
  unfold genDeckStep
  rw [hg]
  dsimp only
  rw [hga]

theorem genDeckStep_merge_err {cfg : DeckConfig}
    {oracle : String → Except String Record} {synth : String → Bytes}
    {prov : List (String × List Value)} {guids : Option (List String)}
    {mdir item : String} {i : Nat} {st st1 : RunState} {g : String} {record : Record}
    (hg : resolveGuid guids cfg.deckName i = .ok g)
    (hga : genAiContent cfg.hasCacheDir cfg.schema oracle item st = (.ok record, st1))
    (hmp : mergeProvided prov i
      (dictInsert (recordToDct record) cfg.itemField (.str item)) = none) :
    genDeckStep cfg oracle synth (some prov) guids mdir item i st
      = (.error .indexError, st1) := by
  unfold genDeckStep
  rw [hg]
  dsimp only
  rw [hga]
  dsimp only
  rw [hmp]

theorem genDeckStep_eq_ok {cfg : DeckConfig}
    {oracle : String → Except String Record} {synth : String → Bytes}
    {prov : List (String × List Value)} {guids : Option (List String)}
    {mdir item : String} {i : Nat} {st st1 : RunState} {g : String} {record : Record}
    {dct2 : List (String × Value)}
    (hg : resolveGuid guids cfg.deckName i = .ok g)
    (hga : genAiContent cfg.hasCacheDir cfg.schema oracle item st = (.ok record, st1))
    (hmp : mergeProvided prov i
      (dictInsert (recordToDct record) cfg.itemField (.str item)) = some dct2) :
    genDeckStep cfg oracle synth (some prov) guids mdir item i st
      = (.ok
          (⟨g, genAnkiNoteFields cfg.ankiFields
              (if cfg.genAudio then dictInsert dct2 "audio" (.str (g ++ ".mp3"))
               else dct2)⟩,
           if cfg.genAudio then some (mdir ++ "/" ++ (g ++ ".mp3")) else none),
         if cfg.genAudio then
           genAudioFile cfg.hasCacheDir synth item (mdir ++ "/" ++ (g ++ ".mp3")) st1
         else st1) := by
  unfold genDeckStep
  rw [hg]
  dsimp only
  rw [hga]
  dsimp only
  rw [hmp]

theorem genDeckLoop_cons (cfg : DeckConfig)
    (oracle : String → Except String Record) (synth : String → Bytes)
    (provided : Option (List (String × List Value))) (guids : Option (List String))
    (mdir item : String) (rest : List String) (i : Nat) (st : RunState)
    (notes : List NoteR) (paths : List String) :
    genDeckLoop cfg oracle synth provided guids mdir (item :: rest) i st notes paths
      = match genDeckStep cfg oracle synth provided guids mdir item i st with
        | (.error e, st1) => (.error e, st1)
        | (.ok (note, pathOpt), st1) =>
          genDeckLoop cfg oracle synth provided guids mdir rest (i + 1) st1
            (note :: notes) (consPath pathOpt paths) := rfl

theorem genDeckStep_aiCache_mono (cfg : DeckConfig)
    (oracle : String → Except String Record) (synth : String → Bytes)
    (provided : Option (List (String × List Value))) (guids : Option (List String))
    (mdir item : String) (i : Nat) (st : RunState) (k : String) (v : Record)
    (hkv : dictGet? st.aiCache k = some v) :
    dictGet? (genDeckStep cfg oracle synth provided guids mdir item i st).2.aiCache k
      = some v := by
  have hga := genAiContent_aiCache_mono cfg.hasCacheDir cfg.schema oracle item st k v hkv
  cases hg : resolveGuid guids cfg.deckName i with
  | error e => rw [genDeckStep_guid_err hg]; exact hkv
  | ok g =>
    rcases hgen : genAiContent cfg.hasCacheDir cfg.schema oracle item st with ⟨res, st1⟩
    rw [hgen] at hga
    cases res with
    | error e => rw [genDeckStep_ai_err hg hgen]; exact hga
    | ok record =>
      cases provided with
      | none => rw [genDeckStep_prov_none hg hgen]; exact hga
      | some prov =>
        cases hmp : mergeProvided prov i
            (dictInsert (recordToDct record) cfg.itemField (Value.str item)) with
        | none => rw [genDeckStep_merge_err hg hgen hmp]; exact hga
        | some dct2 =>
          rw [genDeckStep_eq_ok hg hgen hmp]
          cases hau : cfg.genAudio with
          | false => exact hga
          | true =>
            show dictGet? (genAudioFile cfg.hasCacheDir synth item
              (mdir ++ "/" ++ (g ++ ".mp3")) st1).aiCache k = some v
            rw [(genAudioFile_ai_fields _ _ _ _ _).1]
            exact hga

theorem genDeckLoop_aiCache_mono (cfg : DeckConfig)
    (oracle : String → Except String Record) (synth : String → Bytes)
    (provided : Option (List (String × List Value))) (guids : Option (List String))
    (mdir : String) :
    ∀ (items : List String) (i : Nat) (st : RunState) (notes : List NoteR)
      (paths : List String) (k : String) (v : Record),
      dictGet? st.aiCache k = some v →
      dictGet? (genDeckLoop cfg oracle synth provided guids mdir items i st notes
        paths).2.aiCache k = some v := by
  intro items
  induction items with
  | nil => intro i st notes paths k v hkv; exact hkv
  | cons item rest ih =>
    intro i st notes paths k v hkv
    rw [genDeckLoop_cons]
    have hstep := genDeckStep_aiCache_mono cfg oracle synth provided guids mdir item i
      st k v hkv
    rcases hs : genDeckStep cfg oracle synth provided guids mdir item i st with ⟨res, st1⟩
    rw [hs] at hstep
    cases res with
    | error e => exact hstep
    | ok o =>
      rcases o with ⟨note, pathOpt⟩
      exact ih (i + 1) st1 (note :: notes) _ k v hstep

theorem genDeckStep_ok_cached (cfg : DeckConfig)
    (oracle : String → Except String Record) (synth : String → Bytes)
    (provided : Option (List (String × List Value))) (guids : Option (List String))
    (mdir item : String) (i : Nat) (st : RunState)
    (o : NoteR × Option String) (st1 : RunState)
    (hcd : cfg.hasCacheDir = true)
    (hstep : genDeckStep cfg oracle synth provided guids mdir item i st = (.ok o, st1)) :
    (dictGet? st1.aiCache item).isSome := by
  cases hg : resolveGuid guids cfg.deckName i with
  | error e =>
    rw [genDeckStep_guid_err hg] at hstep
    injection hstep with h1 h2
    exact Except.noConfusion h1
  | ok g =>
    rcases hgen : genAiContent cfg.hasCacheDir cfg.schema oracle item st with ⟨res, stg⟩
    cases res with
    | error e =>
      rw [genDeckStep_ai_err hg hgen] at hstep
      injection hstep with h1 h2
      exact Except.noConfusion h1
    | ok record =>
      have hmem : (dictGet? stg.aiCache item).isSome := by
        have hgen2 := hgen
        rw [hcd] at hgen2
        cases hsc : dictGet? st.aiCache item with
        | some cached =>
          cases hv : validateFields cached cfg.schema with
          | some r =>
            rw [genAiContent_hit hsc hv] at hgen2
            injection hgen2 with h1 h2
            rw [← h2, hsc]
            rfl
          | none =>
            rw [genAiContent_hit_invalid hsc hv] at hgen2
            injection hgen2 with h1 h2
            exact Except.noConfusion h1
        | none =>
          cases ho : oracle item with
          | error e =>
            rw [genAiContent_miss_err hsc ho] at hgen2
            injection hgen2 with h1 h2
            exact Except.noConfusion h1
          | ok r =>
            rw [genAiContent_miss_ok hsc ho] at hgen2
            injection hgen2 with h1 h2
            rw [← h2]
            show (dictGet? (dictInsert st.aiCache item r) item).isSome
            rw [dictGet?_insert_self]
            rfl
      cases provided with
      | none =>
        rw [genDeckStep_prov_none hg hgen] at hstep
        injection hstep with h1 h2
        exact Except.noConfusion h1
      | some prov =>
        cases hmp : mergeProvided prov i
            (dictInsert (recordToDct record) cfg.itemField (Value.str item)) with
        | none =>
          rw [genDeckStep_merge_err hg hgen hmp] at hstep
          injection hstep with h1 h2
          exact Except.noConfusion h1
        | some dct2 =>
          rw [genDeckStep_eq_ok hg hgen hmp] at hstep
          injection hstep with h1 h2
          cases hau : cfg.genAudio with
          | false =>
            rw [hau] at h2
            rw [← h2]
            exact hmem
          | true =>
            rw [hau] at h2
            rw [← h2]
            show (dictGet? (genAudioFile cfg.hasCacheDir synth item
              (mdir ++ "/" ++ (g ++ ".mp3")) stg).aiCache item).isSome
            rw [(genAudioFile_ai_fields _ _ _ _ _).1]
            exact hmem

/-- Decomposition of a failed loop run: there is a unique failure index
`n` — the loop on the first `n` items succeeds, the step on item `n`
raises exactly the observed error and produces exactly the final state —
and every one of those `n` completed items has a record in the final
cache. -/
theorem genDeckLoop_err_decomp (cfg : DeckConfig)
    (oracle : String → Except String Record) (synth : String → Bytes)
    (provided : Option (List (String × List Value))) (guids : Option (List String))
    (mdir : String) (hcd : cfg.hasCacheDir = true) :
    ∀ (items : List String) (i : Nat) (st : RunState) (notes : List NoteR)
      (paths : List String) (e : PyError) (st' : RunState),
      genDeckLoop cfg oracle synth provided guids mdir items i st notes paths
        = (.error e, st') →
      ∃ n, n < items.length ∧
        ∃ notesN pathsN stN w,
          items.get? n = some w ∧
          genDeckLoop cfg oracle synth provided guids mdir (items.take n) i st notes
            paths = (.ok (notesN, pathsN), stN) ∧
          genDeckStep cfg oracle synth provided guids mdir w (i + n) stN
            = (.error e, st') ∧
          ∀ j v, j < n → items.get? j = some v →
            (dictGet? st'.aiCache v).isSome := by
  intro items
  induction items with
  | nil =>
    intro i st notes paths e st' heq
    simp [genDeckLoop] at heq
  | cons item rest ih =>
    intro i st notes paths e st' heq
    rw [genDeckLoop_cons] at heq
    rcases hs : genDeckStep cfg oracle synth provided guids mdir item i st with ⟨res, st1⟩
    rw [hs] at heq
    cases res with
    | error e2 =>
      have heq2 : ((Except.error e2 : Except PyError (List NoteR × List String)), st1)
          = (.error e, st') := heq
      injection heq2 with h1 h2
      injection h1 with h3
      refine ⟨0, Nat.succ_pos _, notes.reverse, paths.reverse, st, item, rfl, rfl,
        ?_, ?_⟩
      · rw [Nat.add_zero, hs, h3, h2]
      · intro j v hj hv
        exact absurd hj (by omega)
    | ok o =>
      rcases o with ⟨note, pathOpt⟩
      have heq2 : genDeckLoop cfg oracle synth provided guids mdir rest (i + 1) st1
          (note :: notes) (consPath pathOpt paths)
          = (.error e, st') := heq
      obtain ⟨n, hn, notesN, pathsN, stN, w, hw, hprefix, hstepErr, hcached⟩ :=
        ih (i + 1) st1 (note :: notes) (consPath pathOpt paths) e st' heq2
      refine ⟨n + 1, by simpa using Nat.succ_lt_succ hn, notesN, pathsN, stN, w,
        ?_, ?_, ?_, ?_⟩
      · simpa using hw
      · rw [List.take_succ_cons, genDeckLoop_cons, hs]
        exact hprefix
      · rw [show i + (n + 1) = i + 1 + n by omega]
        exact hstepErr
      · intro j v hj hv
        cases j with
        | zero =>
          have hvi : v = item := by simpa using hv.symm
          subst hvi
          have hS3 := genDeckStep_ok_cached cfg oracle synth provided guids mdir v i st
            (note, pathOpt) st1 hcd hs
          obtain ⟨vv, hvv⟩ := Option.isSome_iff_exists.mp hS3
          have hmono := genDeckLoop_aiCache_mono cfg oracle synth provided guids mdir
            rest (i + 1) st1 (note :: notes) (consPath pathOpt paths) v vv hvv
          rw [heq2] at hmono
          rw [hmono]
          rfl
        | succ j =>
          exact hcached j v (by omega) (by simpa using hv)


/-! ## C8: the package is written only after full success; flush always runs -/

/-- C8: the package artifact is written iff every item was processed
without an unrecovered exception (the loop succeeded), and when an
exception propagates out of the per-item loop the package is not written;
in either case the `finally`-path flush writes the full in-memory cache
(with a cache directory configured), which extends the initial cache.
On failure there is a pinned failure index `n`: the loop on the first
`n` items succeeds, the step on item `n` raises exactly the observed
error yielding exactly the flushed final state, and every one of those
`n` completed items has its record in the flushed cache. -/
theorem c8_claim (cfg : DeckConfig) (oracle : String → Except String Record)
    (synth : String → Bytes) (provided : Option (List (String × List Value)))
    (guids : Option (List String)) (outputDir : String) (items : List String)
    (init : RunState) (hcd : cfg.hasCacheDir = true) :
    (∀ v, (genDeck cfg oracle synth provided guids outputDir items init).result = .ok v →
      (genDeck cfg oracle synth provided guids outputDir items init).package = some v) ∧
    (∀ e, (genDeck cfg oracle synth provided guids outputDir items init).result
        = .error e →
      (genDeck cfg oracle synth provided guids outputDir items init).package = none) ∧
    (genDeck cfg oracle synth provided guids outputDir items init).flushed
      = some (encodeCache
          (genDeck cfg oracle synth provided guids outputDir items init).finalState.aiCache) ∧
    (∀ k v, dictGet? init.aiCache k = some v →
      dictGet? (genDeck cfg oracle synth provided guids outputDir items
        init).finalState.aiCache k = some v) ∧
    (∀ e, (genDeck cfg oracle synth provided guids outputDir items init).result
        = .error e →
      ∃ n, n < items.length ∧
        ∃ notesN pathsN stN w,
          items.get? n = some w ∧
          genDeckLoop cfg oracle synth provided guids (outputDir ++ "/media")
            (items.take n) 0 init [] [] = (.ok (notesN, pathsN), stN) ∧
          genDeckStep cfg oracle synth provided guids (outputDir ++ "/media") w n stN
            = (.error e,
               (genDeck cfg oracle synth provided guids outputDir items
                 init).finalState) ∧
          ∀ j v, j < n → items.get? j = some v →
            (dictGet? (genDeck cfg oracle synth provided guids outputDir items
              init).finalState.aiCache v).isSome) := by
  unfold genDeck
  dsimp only
  rcases hloop : genDeckLoop cfg oracle synth provided guids (outputDir ++ "/media")
    items 0 init [] [] with ⟨res, st⟩
  have hmono : ∀ k v, dictGet? init.aiCache k = some v →
      dictGet? st.aiCache k = some v := by
    intro k v hkv
    have h := genDeckLoop_aiCache_mono cfg oracle synth provided guids
      (outputDir ++ "/media") items 0 init [] [] k v hkv
    rw [hloop] at h
    exact h
  dsimp only
  cases res with
  | error e =>
    dsimp only
    refine ⟨fun v hv => by simp at hv, fun e2 he2 => rfl, by simp [saveAiCache, hcd],
      hmono, fun e2 he2 => ?_⟩
    injection he2 with hee
    subst hee
    obtain ⟨n, hn, notesN, pathsN, stN, w, hw, hprefix, hstepErr, hcached⟩ :=
      genDeckLoop_err_decomp cfg oracle synth provided guids (outputDir ++ "/media")
        hcd items 0 init [] [] e st hloop
    rw [Nat.zero_add] at hstepErr
    exact ⟨n, hn, notesN, pathsN, stN, w, hw, hprefix, hstepErr, hcached⟩
  | ok out =>
    dsimp only
    exact ⟨fun v hv => by injection hv with h; rw [h], fun e2 he2 => by simp at he2,
      by simp [saveAiCache, hcd], hmono,
      fun e2 he2 => by simp at he2⟩

/-- Witness for C8: a concrete two-item run whose provider fails on the
second item still flushes the full cache. -/
theorem c8_witness :
    (genDeck ⟨[("definition", false)], "word", ["word", "definition"], "My Deck",
        false, true⟩
      (fun w => if w == "b" then .error "boom"
                else .ok [("definition", .rstr "ok")])
      (fun _ => []) (some []) none "output" ["a", "b"]
      ⟨[], 0, [], [], 0⟩).flushed
    = some (encodeCache
        (genDeck ⟨[("definition", false)], "word", ["word", "definition"], "My Deck",
          false, true⟩
        (fun w => if w == "b" then .error "boom"
                  else .ok [("definition", .rstr "ok")])
        (fun _ => []) (some []) none "output" ["a", "b"]
        ⟨[], 0, [], [], 0⟩).finalState.aiCache) :=
  (c8_claim ⟨[("definition", false)], "word", ["word", "definition"], "My Deck",
      false, true⟩
    (fun w => if w == "b" then .error "boom"
              else .ok [("definition", .rstr "ok")])
    (fun _ => []) (some []) none "output" ["a", "b"]
    ⟨[], 0, [], [], 0⟩ rfl).2.2.1

/-! ## C9: a missing provided-content mapping crashes the first item -/

/-- C9: calling `gen_deck` with a non-empty item list and the default
`provided_content = None` raises during the first item's field-merge step
(the code dereferences `provided_content.items()` unconditionally): the
run fails with the AttributeError, no package is written — and the
provider has already been called once for the first item before the
failure. -/
theorem c9_claim (cfg : DeckConfig) (oracle : String → Except String Record)
    (synth : String → Bytes) (outputDir item : String) (rest : List String)
    (init : RunState) (r : Record)
    (hc : dictGet? init.aiCache item = none) (ho : oracle item = .ok r) :
    (genDeck cfg oracle synth none none outputDir (item :: rest) init).result
      = .error .attributeNone ∧
    (genDeck cfg oracle synth none none outputDir (item :: rest) init).package = none ∧
    (genDeck cfg oracle synth none none outputDir (item :: rest) init).finalState.aiCalls
      = init.aiCalls + 1 := by
  have hstep : genDeckStep cfg oracle synth none none (outputDir ++ "/media") item 0 init
      = (.error .attributeNone,
         if cfg.hasCacheDir then
           { init with
             aiCalls := init.aiCalls + 1,
             aiCache := dictInsert init.aiCache item r }
         else { init with aiCalls := init.aiCalls + 1 }) := by
    unfold genDeckStep genAiContent resolveGuid
    cases hcd : cfg.hasCacheDir <;> simp [hc, ho]
  unfold genDeck
  dsimp only
  unfold genDeckLoop
  rw [hstep]
  dsimp only
  cases hcd : cfg.hasCacheDir <;> simp

/-- Witness for C9: a concrete one-item run with `provided_content`
left at None fails with the AttributeError after a single provider call. -/
theorem c9_witness :
    (genDeck ⟨[("definition", false)], "word", ["word", "definition"], "My Deck",
        false, true⟩
      (fun _ => .ok [("definition", .rstr "ok")]) (fun _ => []) none none "output"
      ["run"] ⟨[], 0, [], [], 0⟩).result = .error .attributeNone ∧
    (genDeck ⟨[("definition", false)], "word", ["word", "definition"], "My Deck",
        false, true⟩
      (fun _ => .ok [("definition", .rstr "ok")]) (fun _ => []) none none "output"
      ["run"] ⟨[], 0, [], [], 0⟩).package = none ∧
    (genDeck ⟨[("definition", false)], "word", ["word", "definition"], "My Deck",
        false, true⟩
      (fun _ => .ok [("definition", .rstr "ok")]) (fun _ => []) none none "output"
      ["run"] ⟨[], 0, [], [], 0⟩).finalState.aiCalls = 0 + 1 :=
  c9_claim ⟨[("definition", false)], "word", ["word", "definition"], "My Deck",
      false, true⟩
    (fun _ => .ok [("definition", .rstr "ok")]) (fun _ => []) "output" "run" []
    ⟨[], 0, [], [], 0⟩ [("definition", .rstr "ok")] (by decide) rfl

/-! ## C6: idempotence of a second run over an unchanged cache

A record conforms to the compiled schema when its field names and shapes
match the schema exactly, in order — which is what `model_dump()` of an
instance of the compiled pydantic model produces (the generation
provider's `response_model` contract, and the spec's "validating
extraction layer upstream" invariant). -/

/-- The shape of a record: its field names with their list-ness, in order. -/
def recShape (r : Record) : List (String × Bool) :=
  r.map fun p => (p.1, p.2.isListVal)

/-- Every record stored in the cache conforms to the compiled schema. -/
def CacheConf (schema : List (String × Bool)) (c : Cache) : Prop :=
  ∀ k r, dictGet? c k = some r → recShape r = schema

/-- Every successful provider result conforms to the compiled schema. -/
def OracleConf (schema : List (String × Bool))
    (oracle : String → Except String Record) : Prop :=
  ∀ w r, oracle w = .ok r → recShape r = schema

theorem nodup_assoc_get {α : Type} :
    ∀ (d : List (String × α)), (d.map Prod.fst).Nodup →
      ∀ p ∈ d, dictGet? d p.1 = some p.2 := by
  intro d
  induction d with
  | nil => intro _ p hp; cases hp
  | cons q rest ih =>
    intro hnd p hp
    simp only [List.map_cons, List.nodup_cons] at hnd
    rcases List.mem_cons.mp hp with rfl | hp2
    · simp [dictGet?]
    · have hq : q.1 ≠ p.1 := by
        intro hc
        exact hnd.1 (hc ▸ List.mem_map_of_mem Prod.fst hp2)
      have hb : (q.1 == p.1) = false := beq_eq_false_iff_ne.mpr hq
      simp only [dictGet?, hb, if_false]
      exact ih hnd.2 p hp2

theorem validateFields_of_sub (big : Record) :
    ∀ (sub : Record), (∀ p ∈ sub, dictGet? big p.1 = some p.2) →
      validateFields big (recShape sub) = some sub := by
  intro sub
  induction sub with
  | nil => intro _; rfl
  | cons p rest ih =>
    intro h
    have hp := h p (List.mem_cons_self p rest)
    simp only [recShape, List.map_cons, validateFields]
    rw [hp]
    simp only [beq_self_eq_true, if_true]
    have hrest := ih (fun q hq => h q (List.mem_cons_of_mem p hq))
    simp only [recShape] at hrest
    rw [hrest]
    rfl

/-- Pydantic reconstruction is the identity on records that conform
exactly to the schema (given unique schema field names). -/
theorem validateFields_conf {schema : List (String × Bool)} {r : Record}
    (hnd : (schema.map Prod.fst).Nodup) (hconf : recShape r = schema) :
    validateFields r schema = some r := by
  subst hconf
  have hkeys : (recShape r).map Prod.fst = r.map Prod.fst := by
    simp [recShape, List.map_map]
  rw [hkeys] at hnd
  exact validateFields_of_sub r r (nodup_assoc_get r hnd)

theorem cacheConf_insert {schema : List (String × Bool)} {c : Cache} {w : String}
    {r : Record} (hcc : CacheConf schema c) (hr : recShape r = schema) :
    CacheConf schema (dictInsert c w r) := by
  intro k r2 hk
  by_cases hkw : k = w
  · subst hkw
    rw [dictGet?_insert_self] at hk
    injection hk with h
    rw [← h]
    exact hr
  · rw [dictGet?_insert_ne _ _ _ _ hkw] at hk
    exact hcc k r2 hk

/-- A successful iteration leaves the item's record in the cache,
conforming, with the cache still conforming — and replaying the same
iteration against any state whose cache maps the item to that record (any
provider, any synthesizer) returns the same note without touching the AI
cache or the call counter. -/
theorem genDeckStep_replay {cfg : DeckConfig}
    {oracle : String → Except String Record} {synth : String → Bytes}
    {provided : Option (List (String × List Value))} {guids : Option (List String)}
    {mdir item : String} {i : Nat} {st : RunState}
    {o : NoteR × Option String} {st1 : RunState}
    (hcd : cfg.hasCacheDir = true)
    (hnd : (cfg.schema.map Prod.fst).Nodup)
    (hoc : OracleConf cfg.schema oracle)
    (hcc : CacheConf cfg.schema st.aiCache)
    (hstep : genDeckStep cfg oracle synth provided guids mdir item i st = (.ok o, st1)) :
    ∃ r, dictGet? st1.aiCache item = some r ∧ recShape r = cfg.schema ∧
      CacheConf cfg.schema st1.aiCache ∧
      ∀ (oracle2 : String → Except String Record) (synth2 : String → Bytes)
        (st2 : RunState), dictGet? st2.aiCache item = some r →
        ∃ st2', genDeckStep cfg oracle2 synth2 provided guids mdir item i st2
            = (.ok o, st2') ∧ st2'.aiCache = st2.aiCache ∧
            st2'.aiCalls = st2.aiCalls := by
  cases hg : resolveGuid guids cfg.deckName i with
  | error e =>
    rw [genDeckStep_guid_err hg] at hstep
    injection hstep with h1 h2
    exact Except.noConfusion h1
  | ok g =>
    rcases hgen : genAiContent cfg.hasCacheDir cfg.schema oracle item st with ⟨res, stg⟩
    cases res with
    | error e =>
      rw [genDeckStep_ai_err hg hgen] at hstep
      injection hstep with h1 h2
      exact Except.noConfusion h1
    | ok record =>
      have hgen2 := hgen
      rw [hcd] at hgen2
      have hkey : dictGet? stg.aiCache item = some record ∧
          recShape record = cfg.schema ∧ CacheConf cfg.schema stg.aiCache := by
        cases hsc : dictGet? st.aiCache item with
        | some cached =>
          have hconf := hcc item cached hsc
          have hv : validateFields cached cfg.schema = some cached :=
            validateFields_conf hnd hconf
          rw [genAiContent_hit hsc hv] at hgen2
          injection hgen2 with h1 h2
          injection h1 with h3
          rw [← h2, ← h3]
          exact ⟨hsc, hconf, hcc⟩
        | none =>
          cases ho : oracle item with
          | error e =>
            rw [genAiContent_miss_err hsc ho] at hgen2
            injection hgen2 with h1 h2
            exact Except.noConfusion h1
          | ok r =>
            have hrconf : recShape r = cfg.schema := hoc item r ho
            rw [genAiContent_miss_ok hsc ho] at hgen2
            injection hgen2 with h1 h2
            injection h1 with h3
            rw [← h2, ← h3]
            exact ⟨dictGet?_insert_self _ _ _, hrconf, cacheConf_insert hcc hrconf⟩
      cases provided with
      | none =>
        rw [genDeckStep_prov_none hg hgen] at hstep
        injection hstep with h1 h2
        exact Except.noConfusion h1
      | some prov =>
        cases hmp : mergeProvided prov i
            (dictInsert (recordToDct record) cfg.itemField (Value.str item)) with
        | none =>
          rw [genDeckStep_merge_err hg hgen hmp] at hstep
          injection hstep with h1 h2
          exact Except.noConfusion h1
        | some dct2 =>
          rw [genDeckStep_eq_ok hg hgen hmp] at hstep
          injection hstep with h1 h2
          injection h1 with h3
          refine ⟨record, ?_, hkey.2.1, ?_, ?_⟩
          · rw [← h2]
            cases hau : cfg.genAudio with
            | false => exact hkey.1
            | true =>
              show dictGet? (genAudioFile cfg.hasCacheDir synth item
                (mdir ++ "/" ++ (g ++ ".mp3")) stg).aiCache item = some record
              rw [(genAudioFile_ai_fields _ _ _ _ _).1]
              exact hkey.1
          · rw [← h2]
            cases hau : cfg.genAudio with
            | false => exact hkey.2.2
            | true =>
              show CacheConf cfg.schema (genAudioFile cfg.hasCacheDir synth item
                (mdir ++ "/" ++ (g ++ ".mp3")) stg).aiCache
              rw [(genAudioFile_ai_fields _ _ _ _ _).1]
              exact hkey.2.2
          · intro oracle2 synth2 st2 hmem2
            have hv2 : validateFields record cfg.schema = some record :=
              validateFields_conf hnd hkey.2.1
            have hga2 : genAiContent cfg.hasCacheDir cfg.schema oracle2 item st2
                = (.ok record, st2) := by
              rw [hcd]
              exact genAiContent_hit hmem2 hv2
            have hstep2 := @genDeckStep_eq_ok cfg oracle2 synth2 prov guids mdir
              item i st2 st2 g record dct2 hg hga2 hmp
            rw [h3] at hstep2
            refine ⟨_, hstep2, ?_, ?_⟩
            · cases hau : cfg.genAudio with
              | false => rfl
              | true =>
                show (genAudioFile cfg.hasCacheDir synth2 item
                  (mdir ++ "/" ++ (g ++ ".mp3")) st2).aiCache = st2.aiCache
                exact (genAudioFile_ai_fields _ _ _ _ _).1
            · cases hau : cfg.genAudio with
              | false => rfl
              | true =>
                show (genAudioFile cfg.hasCacheDir synth2 item
                  (mdir ++ "/" ++ (g ++ ".mp3")) st2).aiCalls = st2.aiCalls
                exact (genAudioFile_ai_fields _ _ _ _ _).2

/-- A successful run of the per-item loop leaves every prior cache entry
in place, keeps the cache conforming, and replaying the same item list
against any state whose cache extends the final cache — with ANY provider
and synthesizer — succeeds with the identical accumulated output while
leaving the replay state's AI cache and call counter untouched. -/
theorem genDeckLoop_replay (cfg : DeckConfig)
    (oracle : String → Except String Record) (synth : String → Bytes)
    (provided : Option (List (String × List Value))) (guids : Option (List String))
    (mdir : String)
    (hcd : cfg.hasCacheDir = true) (hnd : (cfg.schema.map Prod.fst).Nodup)
    (hoc : OracleConf cfg.schema oracle) :
    ∀ (items : List String) (i : Nat) (st : RunState) (notes : List NoteR)
      (paths : List String) (out : List NoteR × List String) (st' : RunState),
      CacheConf cfg.schema st.aiCache →
      genDeckLoop cfg oracle synth provided guids mdir items i st notes paths
        = (.ok out, st') →
      (∀ k v, dictGet? st.aiCache k = some v → dictGet? st'.aiCache k = some v) ∧
      CacheConf cfg.schema st'.aiCache ∧
      ∀ (oracle2 : String → Except String Record) (synth2 : String → Bytes)
        (st2 : RunState),
        (∀ k v, dictGet? st'.aiCache k = some v → dictGet? st2.aiCache k = some v) →
        (genDeckLoop cfg oracle2 synth2 provided guids mdir items i st2 notes
          paths).1 = .ok out ∧
        (genDeckLoop cfg oracle2 synth2 provided guids mdir items i st2 notes
          paths).2.aiCache = st2.aiCache ∧
        (genDeckLoop cfg oracle2 synth2 provided guids mdir items i st2 notes
          paths).2.aiCalls = st2.aiCalls := by
  intro items
  induction items with
  | nil =>
    intro i st notes paths out st' hcc heq
    have heq2 : ((Except.ok (notes.reverse, paths.reverse) :
        Except PyError (List NoteR × List String)), st) = (.ok out, st') := heq
    injection heq2 with h1 h2
    injection h1 with h3
    subst h2
    refine ⟨fun k v hkv => hkv, hcc, ?_⟩
    intro oracle2 synth2 st2 hext
    refine ⟨?_, rfl, rfl⟩
    show (Except.ok (notes.reverse, paths.reverse) :
      Except PyError (List NoteR × List String)) = .ok out
    rw [h3]
  | cons item rest ih =>
    intro i st notes paths out st' hcc heq
    rw [genDeckLoop_cons] at heq
    rcases hs : genDeckStep cfg oracle synth provided guids mdir item i st with ⟨res, st1⟩
    rw [hs] at heq
    cases res with
    | error e =>
      have heq2 : ((Except.error e :
          Except PyError (List NoteR × List String)), st1) = (.ok out, st') := heq
      injection heq2 with h1 h2
      exact Except.noConfusion h1
    | ok o =>
      rcases o with ⟨note, pathOpt⟩
      have heq2 : genDeckLoop cfg oracle synth provided guids mdir rest (i + 1) st1
          (note :: notes) (consPath pathOpt paths) = (.ok out, st') := heq
      obtain ⟨r, hr_mem, hr_conf, hcc1, hreplay_step⟩ :=
        genDeckStep_replay hcd hnd hoc hcc hs
      obtain ⟨mono1, conf1, replay1⟩ := ih (i + 1) st1 (note :: notes)
        (consPath pathOpt paths) out st' hcc1 heq2
      refine ⟨?_, conf1, ?_⟩
      · intro k v hkv
        have h1 := genDeckStep_aiCache_mono cfg oracle synth provided guids mdir
          item i st k v hkv
        rw [hs] at h1
        exact mono1 k v h1
      · intro oracle2 synth2 st2 hext
        have hr_st2 : dictGet? st2.aiCache item = some r :=
          hext item r (mono1 item r hr_mem)
        obtain ⟨st2', hstep2, hca, hcl⟩ := hreplay_step oracle2 synth2 st2 hr_st2
        have hloop2 : genDeckLoop cfg oracle2 synth2 provided guids mdir
            (item :: rest) i st2 notes paths
            = genDeckLoop cfg oracle2 synth2 provided guids mdir rest (i + 1) st2'
              (note :: notes) (consPath pathOpt paths) := by
          rw [genDeckLoop_cons, hstep2]
        obtain ⟨o1, o2, o3⟩ := replay1 oracle2 synth2 st2'
          (fun k v hkv => by rw [hca]; exact hext k v hkv)
        rw [hloop2]
        exact ⟨o1, by rw [o2, hca], by rw [o3, hcl]⟩

/-- `gen_deck`'s outcome projections in terms of the per-item loop. -/
theorem genDeck_proj (cfg : DeckConfig) (oracle : String → Except String Record)
    (synth : String → Bytes) (provided : Option (List (String × List Value)))
    (guids : Option (List String)) (outputDir : String) (items : List String)
    (init : RunState) :
    (genDeck cfg oracle synth provided guids outputDir items init).result
      = (genDeckLoop cfg oracle synth provided guids (outputDir ++ "/media") items 0
          init [] []).1 ∧
    (genDeck cfg oracle synth provided guids outputDir items init).finalState
      = (genDeckLoop cfg oracle synth provided guids (outputDir ++ "/media") items 0
          init [] []).2 := by
  unfold genDeck
  dsimp only
  rcases hloop : genDeckLoop cfg oracle synth provided guids (outputDir ++ "/media")
    items 0 init [] [] with ⟨res, st⟩
  cases res with
  | error e => exact ⟨rfl, rfl⟩
  | ok out => exact ⟨rfl, rfl⟩

/-- C6: after a successful batch run whose cache was flushed to disk,
running the batch again with the cache directory, item list, provided
content, guid list and output directory unchanged — the second run
starting from the loaded cache file and a zeroed call counter — issues
zero generation-provider calls (for ANY second-run provider and
synthesizer: the run-2 provider-call counter stays at 0) and yields the
identical result, i.e. the same rendered field sequence for every note.
Hypotheses: a cache directory is configured, the compiled schema's field
names are unique, and the initial cache entries and the first run's
provider results conform to the compiled schema (the provider's
`response_model` contract). -/
theorem c6_claim (cfg : DeckConfig)
    (oracle1 oracle2 : String → Except String Record)
    (synth1 synth2 : String → Bytes)
    (provided : Option (List (String × List Value))) (guids : Option (List String))
    (outputDir : String) (items : List String) (init : RunState)
    (out : List NoteR × List String) (ac2 f2 : List (String × Bytes))
    (hcd : cfg.hasCacheDir = true)
    (hnd : (cfg.schema.map Prod.fst).Nodup)
    (hcc : CacheConf cfg.schema init.aiCache)
    (hoc : OracleConf cfg.schema oracle1)
    (hrun1 : (genDeck cfg oracle1 synth1 provided guids outputDir items init).result
      = .ok out) :
    (genDeck cfg oracle2 synth2 provided guids outputDir items
      ⟨(loadAiCache (some (.ok (encodeCache
          (genDeck cfg oracle1 synth1 provided guids outputDir items
            init).finalState.aiCache)))).1, 0, ac2, f2, 0⟩).result = .ok out ∧
    (genDeck cfg oracle2 synth2 provided guids outputDir items
      ⟨(loadAiCache (some (.ok (encodeCache
          (genDeck cfg oracle1 synth1 provided guids outputDir items
            init).finalState.aiCache)))).1, 0, ac2, f2, 0⟩).finalState.aiCalls = 0 := by
  obtain ⟨hres1, hfin1⟩ := genDeck_proj cfg oracle1 synth1 provided guids outputDir
    items init
  rw [hres1] at hrun1
  rcases hloop1 : genDeckLoop cfg oracle1 synth1 provided guids
    (outputDir ++ "/media") items 0 init [] [] with ⟨res1, stf⟩
  rw [hloop1] at hrun1
  have hres1eq : res1 = .ok out := hrun1
  subst hres1eq
  obtain ⟨mono1, conf1, replay1⟩ := genDeckLoop_replay cfg oracle1 synth1 provided
    guids (outputDir ++ "/media") hcd hnd hoc items 0 init [] [] out stf hcc hloop1
  have hfc : (genDeck cfg oracle1 synth1 provided guids outputDir items
      init).finalState.aiCache = stf.aiCache := by
    rw [hfin1, hloop1]
  rw [hfc]
  have hload : (loadAiCache (some (.ok (encodeCache stf.aiCache)))).1
      = stf.aiCache := by
    show (decodeCache (encodeCache stf.aiCache)).getD [] = stf.aiCache
    rw [decodeCache_encodeCache]
    rfl
  rw [hload]
  obtain ⟨hres2, hfin2⟩ := genDeck_proj cfg oracle2 synth2 provided guids outputDir
    items ⟨stf.aiCache, 0, ac2, f2, 0⟩
  obtain ⟨o1, o2, o3⟩ := replay1 oracle2 synth2 ⟨stf.aiCache, 0, ac2, f2, 0⟩
    (fun k v hkv => hkv)
  rw [hres2, hfin2]
  exact ⟨o1, o3⟩

/-- Witness for C6: a concrete one-item batch whose second run uses a
provider that always fails — yet the second run succeeds with the same
note and zero provider calls, because everything is served from the
flushed cache. -/
theorem c6_witness :
    (genDeck ⟨[("definition", false)], "word", ["word", "definition"], "My Deck",
        false, true⟩
      (fun _ => .error "no network") (fun _ => []) (some []) none "output" ["run"]
      ⟨(loadAiCache (some (.ok (encodeCache
          (genDeck ⟨[("definition", false)], "word", ["word", "definition"],
              "My Deck", false, true⟩
            (fun _ => .ok [("definition", .rstr "x")]) (fun _ => []) (some []) none
            "output" ["run"]
            ⟨[], 0, [], [], 0⟩).finalState.aiCache)))).1, 0, [], [], 0⟩).result
      = .ok ([⟨"MyDeck-1", ["run", "x"]⟩], []) ∧
    (genDeck ⟨[("definition", false)], "word", ["word", "definition"], "My Deck",
        false, true⟩
      (fun _ => .error "no network") (fun _ => []) (some []) none "output" ["run"]
      ⟨(loadAiCache (some (.ok (encodeCache
          (genDeck ⟨[("definition", false)], "word", ["word", "definition"],
              "My Deck", false, true⟩
            (fun _ => .ok [("definition", .rstr "x")]) (fun _ => []) (some []) none
            "output" ["run"]
            ⟨[], 0, [], [], 0⟩).finalState.aiCache)))).1, 0, [], [],
        0⟩).finalState.aiCalls = 0 :=
  c6_claim ⟨[("definition", false)], "word", ["word", "definition"], "My Deck",
      false, true⟩
    (fun _ => .ok [("definition", .rstr "x")]) (fun _ => .error "no network")
    (fun _ => []) (fun _ => []) (some []) none "output" ["run"] ⟨[], 0, [], [], 0⟩
    ([⟨"MyDeck-1", ["run", "x"]⟩], []) [] []
    rfl (by decide) (fun k r h => Option.noConfusion h)
    (fun w r h => by cases h; decide) rfl

end AnkiGen
